import Mathlib

/-
Verification of the TachyFont Incremental Glyph Cache Manager
(src/run_time/src/gae_server/www/js/tachyfont/incrementalfont.js, plus
helpers from the unnamed top-level file src/unnamed/part_000).

The JavaScript is shallowly embedded:
- a JS string is a list of UTF-16 code units (`JsStr`);
- a JS object used as a string-keyed map is a function `JsStr -> Option Nat`
  (`none` models a missing key / `undefined`);
- a JS object keyed by nonnegative integers (`code_map` in
  `possibly_obfuscate`) is a sorted duplicate-free `List Int`, because JS
  objects iterate integer-like keys in ascending numeric order;
- `goog.math.uniformRandom(bottom, top + 1)` composed with `Math.floor`
  is an arbitrary draw `rng i` mapped into the integer window
  `[bottom, top]`;
- promise-returning operations are embedded as `Except String A` results
  paired with a trace of externally visible effects (`Effect`); rejections
  of collaborator promises (backend, IndexedDB, binary transform) are
  inputs in an environment record `Env`.
-/

namespace Tachyfont

/-- A JavaScript string: its UTF-16 code units. -/
abbrev JsStr := List Nat

/-- A string-keyed JS object holding numbers (charlists, charsToLoad).
`none` is a missing key. -/
abbrev CharList := JsStr → Option Nat

/-- JS truthiness of a looked-up number: `undefined` and `0` are falsy. -/
def truthy : Option Nat → Bool
  | none => false
  | some v => v != 0

/-- `obj[k] = v` on a string-keyed JS object. -/
def setKey (m : CharList) (k : JsStr) (v : Nat) : CharList :=
  fun q => if q = k then some v else m q

/-- The empty JS object. -/
def emptyCL : CharList := fun _ => none

/-- `tachyfont.MINIMUM_NON_OBFUSCATION_LENGTH` (src/unnamed/part_000). -/
def MINIMUM_NON_OBFUSCATION_LENGTH : Nat := 20

/-- `tachyfont.OBFUSCATION_RANGE` (src/unnamed/part_000). -/
def OBFUSCATION_RANGE : Int := 256

/-- `tachyfont.charToCode` (src/unnamed/part_000): converts a char to its
codepoint, combining a leading high surrogate with the next unit.
`charCodeAt` out of range is modelled as 0 (it is only applied to
well-formed single-codepoint strings). -/
def charToCode (inputChar : JsStr) : Int :=
  if 0xD800 ≤ inputChar.headD 0 ∧ inputChar.headD 0 ≤ 0xDBFF then
    ((inputChar.headD 0 : Int) - 0xD800) * 1024 +
      ((inputChar.getD 1 0 : Int) - 0xDC00) + 0x10000
  else
    (inputChar.headD 0 : Int)

/-- Modelled from the spec: `tachyfont.utils.stringFromCodePoint` is not in
src (only `tachyfont.utils` callers are); per the spec a codepoint is
"represented as its source character, correctly pairing surrogate halves",
i.e. the standard UTF-16 encoding of one codepoint. -/
def stringFromCodePoint (cp : Nat) : JsStr :=
  if cp ≤ 0xFFFF then [cp]
  else [0xD800 + (cp - 0x10000) / 0x400, 0xDC00 + (cp - 0x10000) % 0x400]

/-- A codepoint that a well-formed JS character can carry
(a Unicode scalar value). -/
def isScalar (cp : Nat) : Prop :=
  cp ≤ 0x10FFFF ∧ (cp < 0xD800 ∨ 0xDFFF < cp)

instance (cp : Nat) : Decidable (isScalar cp) := by
  unfold isScalar; infer_instance

/-- `code_map[newCode] = newCode` on an integer-keyed JS object:
no change when the key exists, otherwise the key joins the ascending
iteration order. -/
def insertKey (k : Int) (cm : List Int) : List Int :=
  if k ∈ cm then cm else List.orderedInsert (· ≤ ·) k cm

/-- `bottom` in `possibly_obfuscate`: `code - OBFUSCATION_RANGE / 2`,
clipped at 0. -/
def windowBottom (code : Int) : Int := max 0 (code - OBFUSCATION_RANGE / 2)

/-- `top` in `possibly_obfuscate`: `code + OBFUSCATION_RANGE / 2`. -/
def windowTop (code : Int) : Int := code + OBFUSCATION_RANGE / 2

/-- The candidate decoy codepoint of loop iteration `i` of
`possibly_obfuscate`: `Math.floor(goog.math.uniformRandom(bottom, top + 1))`
for the window of `codes[i % codes.length]`, modelled as the arbitrary
draw `rng i` mapped into the integer window `[bottom, top]`. -/
def newCodeAt (codes : List Int) (rng : Nat → Nat) (i : Nat) : Int :=
  windowBottom (codes.getD (i % codes.length) 0) +
    (rng i : Int) %
      (windowTop (codes.getD (i % codes.length) 0) + 1 -
        windowBottom (codes.getD (i % codes.length) 0))

/-- The bounded decoy-collection loop of
`tachyfont.IncrementalFont.possibly_obfuscate`: runs while
`Object.keys(code_map).length < MINIMUM_NON_OBFUSCATION_LENGTH` and fewer
than `max_tries` iterations have happened; a drawn code is rejected when it
is not in `loadableCodepoints` or its character is already present in
`alreadyRequestedChars`, otherwise it is added to both. -/
def obfLoop (codes : List Int) (loadable : Int → Bool) (rng : Nat → Nat) :
    Nat → Nat → List Int → CharList → List Int × CharList
  | 0, _, cm, ar => (cm, ar)
  | Nat.succ fuel, i, cm, ar =>
    if MINIMUM_NON_OBFUSCATION_LENGTH ≤ cm.length then (cm, ar)
    else if loadable (newCodeAt codes rng i) = false then
      obfLoop codes loadable rng fuel (i + 1) cm ar
    else if ar (stringFromCodePoint (newCodeAt codes rng i).toNat) = none then
      obfLoop codes loadable rng fuel (i + 1)
        (insertKey (newCodeAt codes rng i) cm)
        (setKey ar (stringFromCodePoint (newCodeAt codes rng i).toNat) 1)
    else
      obfLoop codes loadable rng fuel (i + 1) cm ar

/-- `tachyfont.IncrementalFont.possibly_obfuscate`
(incrementalfont.js lines 632-679). `noObfuscate` is
`tachyfont.utils.noObfuscate`; the returned pair is the produced code
sequence (`combined_codes`, in the ascending iteration order of
`code_map`) together with the mutated `alreadyRequestedChars`. -/
def possibly_obfuscate (noObfuscate : Bool) (rng : Nat → Nat)
    (codes : List Int) (alreadyRequestedChars : CharList)
    (loadableCodepoints : Int → Bool) : List Int × CharList :=
  if noObfuscate then (codes, alreadyRequestedChars)
  else if MINIMUM_NON_OBFUSCATION_LENGTH ≤ codes.length then
    (codes, alreadyRequestedChars)
  else
    obfLoop codes loadableCodepoints rng
      ((MINIMUM_NON_OBFUSCATION_LENGTH - codes.length) * 10 + 100) 0
      (codes.foldl (fun m c => insertKey c m) []) alreadyRequestedChars

/-- The diff loop of `calcNeededChars` (incrementalfont.js lines 848-858):
for each requested char, push its codepoint iff the font supports it and
`tmp_charlist` does not mark it, then mark it in `tmp_charlist`. -/
def diffStep (loadable : Int → Bool) : List JsStr → CharList → List Int
  | [], _ => []
  | c :: rest, tmp =>
    if loadable (charToCode c) = true ∧ truthy (tmp c) = false then
      charToCode c :: diffStep loadable rest (setKey tmp c 1)
    else
      diffStep loadable rest tmp

/-- `this.maximumRequestSize_ = params['req_size'] || 2200;`
(incrementalfont.js lines 203-205). -/
def maximumRequestSize (reqSize : Option Nat) : Nat :=
  match reqSize with
  | some n => if n = 0 then 2200 else n
  | none => 2200

/-- The per-font manager state that `calcNeededChars` reads. -/
structure FontState where
  charsToLoad : List JsStr
  loadable : Int → Bool
  maxReq : Nat
  noObfuscate : Bool
  sha1 : String
  dbName : String
  haveReadFileInfo : Bool
  refetchedCompact : Bool

/-- The outcome of the resolved-charlist part of `calcNeededChars`. -/
structure CalcResult where
  neededCodes : List Int
  remaining : List Int
  charlist : CharList
  charsToLoad : List JsStr
  followUp : Bool

/-- `neededCodes = neededCodes.slice(0, this.maximumRequestSize_)` when
`maximumRequestSize_` is truthy (incrementalfont.js lines 880-885). -/
def sentCodes (st : FontState) (codes : List Int) : List Int :=
  if st.maxReq ≠ 0 then codes.take st.maxReq else codes

/-- `remaining = neededCodes.slice(this.maximumRequestSize_)` when
`maximumRequestSize_` is truthy, else `[]` (incrementalfont.js lines
880-885). -/
def remainingCodes (st : FontState) (codes : List Int) : List Int :=
  if st.maxReq ≠ 0 then codes.drop st.maxReq else []

/-- The tail of `calcNeededChars` after obfuscation (incrementalfont.js
lines 871-901): split the obfuscated sequence `ob.1` at
`maximumRequestSize_`, mark each sent code in the (already
obfuscation-mutated) charlist `ob.2` and delete it from `charsToLoad_`,
schedule a follow-up `loadChars` via `setTimeout` when a remainder was
split off, and sort the sent codes ascending numerically. -/
def calcChunk (st : FontState) (ob : List Int × CharList) : CalcResult :=
  ⟨List.insertionSort (· ≤ ·) (sentCodes st ob.1),
    remainingCodes st ob.1,
    (sentCodes st ob.1).foldl
      (fun cl code => setKey cl (stringFromCodePoint code.toNat) 1) ob.2,
    st.charsToLoad.filter
      (fun c => !((sentCodes st ob.1).map
        (fun code => stringFromCodePoint code.toNat)).contains c),
    !(remainingCodes st ob.1).isEmpty⟩

/-- The body of `tachyfont.IncrementalFont.obj.prototype.calcNeededChars`
(incrementalfont.js lines 827-904) once the compact charlist promise has
resolved with `charlist`: diff against a temporary copy; when nothing is
needed, resolve at once; otherwise obfuscate (which mutates the live
`charlist`) and run the chunk/mark/sort tail. -/
def calcNeededChars (st : FontState) (rng : Nat → Nat) (charlist : CharList) :
    CalcResult :=
  if (diffStep st.loadable st.charsToLoad charlist).length = 0 then
    ⟨[], [], charlist, st.charsToLoad, false⟩
  else
    calcChunk st (possibly_obfuscate st.noObfuscate rng
      (diffStep st.loadable st.charsToLoad charlist) charlist st.loadable)

/-- `tachyfont.GlyphBundleResponse`: the fields `loadChars` and
`checkFingerprint` read. -/
structure GlyphBundleResponse where
  glyphCount : Nat
  signature : String
deriving DecidableEq

/-- Externally visible actions of one cycle, in program order. -/
inductive Effect where
  | report (errNum : String)
  | log (logId : String)
  | dbDeleted (dbName : String)
  | fetchAttempt (codes : List Int)
  | injectAttempt (codes : List Int)
  | setFontAttempt
  | putStoresAttempt
  | clearStores
  | needToSetFont
  | followUpScheduled
  | lockReleased
deriving DecidableEq

/-- `tachyfont.IncrementalFont.Error` values used below. -/
def errLOAD_CHARS_GET_LOCK : String := "18"

def errFINGERPRINT_MISMATCH : String := "42"

def errDELETE_IDB : String := "44"

def errINJECT_FONT_COMPACT : String := "49"

def errINJECT_COMPACT : String := "51"

def errSAVE_NEW_COMPACT : String := "57"

def errINJECT_FONT_INJECT_CHARS : String := "59"

def errREJECTED_GET_COMPACT_CHARLIST : String := "63"

def errCALC_NEEDED_CHARS : String := "68"

/-- `tachyfont.IncrementalFont.Log` values used below. -/
def logURL_GET_BASE : String := "LIFUB"

def logMISS_COUNT : String := "LIFMC"

def logMISS_RATE : String := "LIFMR"

/-- `tachyfont.typedef.FontTableData` after `compactCff.compact()`:
opaque tokens for the compact font bytes, fileInfo, charList and metadata
produced by the out-of-scope binary transform. -/
structure FontTableData where
  fontData : Nat
  fileInfo : Nat
  charList : Nat
  metadata : Nat

/-- `tachyfont.typedef.CompactFontWorkingData`. -/
structure CompactFontWorkingData where
  fontBytes : Nat
  fileInfo : Nat
  charList : Nat
deriving DecidableEq

/-- Outcomes of the collaborator promises reachable from one `loadChars`
cycle. Each field is the settled result of the corresponding collaborator
call; the collaborators may resolve or reject arbitrarily. -/
structure Env where
  preceding : Except String Unit
  charList : Except String CharList
  request : Except String (Option GlyphBundleResponse)
  deleteDb : Except String Unit
  inject : Except String Unit
  setFont : Except String Unit
  clearStores : Except String Unit
  requestBase : Except String Nat
  openDb : Except String Unit
  getMetadata : Except String (Option Nat)
  putStores : Except String Unit
  compactOf : Nat → FontTableData
  rng : Nat → Nat

/-- `tachyfont.IncrementalFont.obj.prototype.dropDb`
(incrementalfont.js lines 336-345): attempt `Persist.deleteDatabase`; on
failure report `DELETE_IDB` and reject. -/
def dropDb (env : Env) (st : FontState) : Except String Unit × List Effect :=
  match env.deleteDb with
  | Except.ok _ => (Except.ok (), [Effect.dbDeleted st.dbName])
  | Except.error _ => (Except.error "accessDb", [Effect.report errDELETE_IDB])

/-- `tachyfont.IncrementalFont.obj.prototype.handleFingerprintMismatch`
(incrementalfont.js lines 954-962): report `FINGERPRINT_MISMATCH`, drop
the database, then reject. -/
def handleFingerprintMismatch (env : Env) (st : FontState) :
    Except String (Option GlyphBundleResponse) × List Effect :=
  match dropDb env st with
  | (Except.ok _, fx) =>
      (Except.error "deleted database", Effect.report errFINGERPRINT_MISMATCH :: fx)
  | (Except.error e, fx) =>
      (Except.error e, Effect.report errFINGERPRINT_MISMATCH :: fx)

/-- `tachyfont.IncrementalFont.obj.prototype.checkFingerprint`
(incrementalfont.js lines 934-945): a null bundle resolves; otherwise
resolve iff the bundle signature equals the font base fingerprint. -/
def checkFingerprint (st : FontState)
    (bundleResponse : Option GlyphBundleResponse) :
    Except String (Option GlyphBundleResponse) :=
  match bundleResponse with
  | none => Except.ok none
  | some b =>
      if st.sha1 = b.signature then Except.ok (some b)
      else Except.error "reject fingerprint"

/-- `tachyfont.IncrementalFont.obj.prototype.fetchChars`
(incrementalfont.js lines 912-924). The single `thenCatch` after
`checkFingerprint` catches both a rejection of
`backendService_.requestCodepoints` (a transport failure) and the
fingerprint rejection, and routes both into `handleFingerprintMismatch`. -/
def fetchChars (env : Env) (st : FontState) (requestedCodes : List Int) :
    Except String (Option GlyphBundleResponse) × List Effect :=
  if requestedCodes.length = 0 then (Except.error "no chars to fetch", [])
  else
    match env.request with
    | Except.error _ =>
        match handleFingerprintMismatch env st with
        | (r, fx) => (r, Effect.fetchAttempt requestedCodes :: fx)
    | Except.ok bundleResponse =>
        match checkFingerprint st bundleResponse with
        | Except.ok b => (Except.ok b, [Effect.fetchAttempt requestedCodes])
        | Except.error _ =>
            match handleFingerprintMismatch env st with
            | (r, fx) => (r, Effect.fetchAttempt requestedCodes :: fx)

/-- `tachyfont.IncrementalFont.obj.prototype.saveNewCompactFont`
(incrementalfont.js lines 557-591): open the db, read the stored metadata,
write the four stores. The error handler of the final two-armed `then`
evaluates `tachyfont.SyncPromise.reject(e)` without returning it, so a
`getStores`/`putStores` failure is swallowed and the promise resolves with
`undefined` (modelled `Except.ok none`); only an `openIndexedDb` failure
rejects. On success it resolves with the written values. -/
def saveNewCompactFont (env : Env) (fontTableData : FontTableData) :
    Except String (Option (List Nat)) × List Effect :=
  match env.openDb with
  | Except.error e => (Except.error e, [])
  | Except.ok _ =>
      match env.getMetadata with
      | Except.error _ => (Except.ok none, [])
      | Except.ok mdOpt =>
          match env.putStores with
          | Except.ok _ =>
              (Except.ok (some [fontTableData.fontData, fontTableData.fileInfo,
                fontTableData.charList, mdOpt.getD fontTableData.metadata]),
                [Effect.putStoresAttempt])
          | Except.error _ => (Except.ok none, [Effect.putStoresAttempt])

/-- `tachyfont.IncrementalFont.obj.prototype.processFontbase`
(incrementalfont.js lines 508-547): log, decode and compact the fetched
base (out-of-scope binary transform, `env.compactOf`), save it; on a save
rejection report `SAVE_NEW_COMPACT`, clear the data stores and reject; on
a save resolution unpack `newData[0]`, `newData[1]`, `newData[2]` — which
throws a `TypeError` when the save step swallowed a write failure and
resolved with `undefined`. -/
def processFontbase (env : Env) (urlBaseBytes : Nat) :
    Except String CompactFontWorkingData × List Effect :=
  match saveNewCompactFont env (env.compactOf urlBaseBytes) with
  | (Except.error e, fx) =>
      (match env.clearStores with
       | Except.ok _ => Except.error e
       | Except.error e2 => Except.error e2,
       Effect.log logURL_GET_BASE :: fx ++
         [Effect.report errSAVE_NEW_COMPACT, Effect.clearStores])
  | (Except.ok none, fx) =>
      (Except.error "TypeError: newData is undefined",
        Effect.log logURL_GET_BASE :: fx)
  | (Except.ok (some vals), fx) =>
      (Except.ok ⟨vals.getD 0 0, vals.getD 1 0, vals.getD 2 0⟩,
        Effect.log logURL_GET_BASE :: fx)

/-- `tachyfont.IncrementalFont.obj.prototype.getCompactFontFromUrl`
(incrementalfont.js lines 467-478): fetch the base bytes from the backend,
then `processFontbase`. -/
def getCompactFontFromUrl (env : Env) :
    Except String CompactFontWorkingData × List Effect :=
  match env.requestBase with
  | Except.error e => (Except.error e, [])
  | Except.ok bytes => processFontbase env bytes

/-- `tachyfont.IncrementalFont.obj.prototype.injectCompact`
(incrementalfont.js lines 775-820): call `CompactCff.injectChars`; on its
failure report `INJECT_FONT_INJECT_CHARS`, delete the database (a delete
failure is swallowed by `thenCatch(function() {})`) and reject. On success
call `Browser.setFont`; on its failure report `INJECT_FONT_COMPACT` and
reject. -/
def injectCompact (env : Env) (st : FontState) (neededCodes : List Int) :
    Except String Unit × List Effect :=
  match env.inject with
  | Except.error e =>
      match env.deleteDb with
      | Except.ok _ =>
          (Except.error e, [Effect.injectAttempt neededCodes,
            Effect.report errINJECT_FONT_INJECT_CHARS, Effect.dbDeleted st.dbName])
      | Except.error _ =>
          (Except.error e, [Effect.injectAttempt neededCodes,
            Effect.report errINJECT_FONT_INJECT_CHARS])
  | Except.ok _ =>
      match env.setFont with
      | Except.ok _ =>
          (Except.ok (), [Effect.injectAttempt neededCodes, Effect.setFontAttempt])
      | Except.error e =>
          (Except.error e, [Effect.injectAttempt neededCodes,
            Effect.setFontAttempt, Effect.report errINJECT_FONT_COMPACT])

/-- `calcNeededChars` at the promise level (incrementalfont.js lines
827-846): empty `charsToLoad_` resolves `[]` without consulting the
charlist; a rejected compact-charlist promise reports
`REJECTED_GET_COMPACT_CHARLIST` and re-rejects; otherwise run the diff
body, emit the miss logs, and schedule the follow-up `loadChars` via
`setTimeout` when a remainder was split off. -/
def calcNeededCharsPromise (env : Env) (st : FontState) :
    Except String (List Int) × List Effect :=
  if st.charsToLoad.isEmpty then (Except.ok [], [])
  else
    match env.charList with
    | Except.error e =>
        (Except.error e, [Effect.report errREJECTED_GET_COMPACT_CHARLIST])
    | Except.ok cl =>
        match calcNeededChars st env.rng cl with
        | r =>
            (Except.ok r.neededCodes,
              [Effect.log logMISS_COUNT, Effect.log logMISS_RATE] ++
                (if r.followUp then [Effect.followUpScheduled] else []))

/-- The chain inside `loadChars` from `calcNeededChars` through injection
(incrementalfont.js lines 694-757), i.e. everything upstream of the final
swallowing `thenCatch(function(e) { /* No chars to fetch */ })`:
- a `calcNeededChars` rejection is reported as `CALC_NEEDED_CHARS` and
  re-rejected;
- an empty needed list rejects with no chars to load;
- otherwise `fetchChars`; a null bundle rejects; a nonzero glyph count
  sets `needToSetFont_`;
- `getCompactCharList()` (the same settled promise `calcNeededChars`
  consulted) is used as a lock: when it resolves, `this.injectCompact(...)`
  is invoked without `return`, so its rejection is dropped and the chain
  resolves; when it rejects, the once-only compact refetch retry runs, and
  any failure there is reported as `INJECT_COMPACT` followed by
  `clearDataStores`. -/
def loadCycle (env : Env) (st : FontState) : Except String Unit × List Effect :=
  match calcNeededCharsPromise env st with
  | (Except.error e, fx) => (Except.error e, fx ++ [Effect.report errCALC_NEEDED_CHARS])
  | (Except.ok neededCodes, fx) =>
      if neededCodes.isEmpty then (Except.error "no chars to load", fx)
      else
        match fetchChars env st neededCodes with
        | (Except.error e, fy) => (Except.error e, fx ++ fy)
        | (Except.ok none, fy) => (Except.error "bundleResponse is null", fx ++ fy)
        | (Except.ok (some bundleResponse), fy) =>
            let fz := if bundleResponse.glyphCount ≠ 0 then [Effect.needToSetFont] else []
            match env.charList with
            | Except.ok _ =>
                (Except.ok (), fx ++ fy ++ fz ++ (injectCompact env st neededCodes).2)
            | Except.error _ =>
                if st.refetchedCompact then
                  (match env.clearStores with
                   | Except.ok _ => Except.ok ()
                   | Except.error e2 => Except.error e2,
                   fx ++ fy ++ fz ++ [Effect.report errINJECT_COMPACT, Effect.clearStores])
                else
                  match getCompactFontFromUrl env with
                  | (Except.error _, fw) =>
                      (match env.clearStores with
                       | Except.ok _ => Except.ok ()
                       | Except.error e2 => Except.error e2,
                       fx ++ fy ++ fz ++ fw ++
                         [Effect.report errINJECT_COMPACT, Effect.clearStores])
                  | (Except.ok _, fw) =>
                      match injectCompact env st neededCodes with
                      | (Except.ok _, fi) => (Except.ok (), fx ++ fy ++ fz ++ fw ++ fi)
                      | (Except.error _, fi) =>
                          (match env.clearStores with
                           | Except.ok _ => Except.ok ()
                           | Except.error e2 => Except.error e2,
                           fx ++ fy ++ fz ++ fw ++ fi ++
                             [Effect.report errINJECT_COMPACT, Effect.clearStores])

/-- `tachyfont.IncrementalFont.obj.prototype.loadChars`
(incrementalfont.js lines 687-771). A rejection of the preceding chained
promise, or the `goog.asserts.assert(this.haveReadFileInfo_)` throw, is
caught by the outer `thenCatch`, which releases the lock and reports
`LOAD_CHARS_GET_LOCK`; every rejection of the inner chain is swallowed by
`thenCatch(function(e) { /* No chars to fetch */ })`; `thenAlways`
releases the lock. The returned promise therefore always resolves. -/
def loadChars (env : Env) (st : FontState) : Except String Unit × List Effect :=
  match env.preceding with
  | Except.error _ =>
      (Except.ok (), [Effect.lockReleased, Effect.report errLOAD_CHARS_GET_LOCK])
  | Except.ok _ =>
      if st.haveReadFileInfo then
        (Except.ok (), (loadCycle env st).2 ++ [Effect.lockReleased])
      else
        (Except.ok (), [Effect.lockReleased, Effect.report errLOAD_CHARS_GET_LOCK])

/-- The diff-and-obfuscate sequence of a cycle: the value of the JS
variable `neededCodes` right after the `possibly_obfuscate` call in
`calcNeededChars` and before the slice at `maximumRequestSize_`. -/
def obfuscatedNeeded (st : FontState) (rng : Nat → Nat) (cl : CharList) :
    List Int :=
  (possibly_obfuscate st.noObfuscate rng
    (diffStep st.loadable st.charsToLoad cl) cl st.loadable).1

/-- A collaborator environment in which every call succeeds; concrete
scenarios below override individual fields. -/
def envAllOk : Env where
  preceding := Except.ok ()
  charList := Except.ok emptyCL
  request := Except.ok (some ⟨1, "abc123"⟩)
  deleteDb := Except.ok ()
  inject := Except.ok ()
  setFont := Except.ok ()
  clearStores := Except.ok ()
  requestBase := Except.ok 0
  openDb := Except.ok ()
  getMetadata := Except.ok none
  putStores := Except.ok ()
  compactOf := fun _ => ⟨0, 1, 2, 3⟩
  rng := fun _ => 0

/-- A concrete manager state for the scenarios below. -/
def stBase : FontState where
  charsToLoad := [[65]]
  loadable := fun _ => true
  maxReq := 2200
  noObfuscate := true
  sha1 := "abc123"
  dbName := "notosanstc_400"
  haveReadFileInfo := true
  refetchedCompact := false

/-- A scenario state: 21 requested chars with descending codepoints 100
down to 80, request-size limit 20, obfuscation enabled (and skipped, as
21 is at least 20). -/
def stDescending : FontState :=
  { stBase with
    charsToLoad := (List.range 21).map (fun k => [100 - k])
    noObfuscate := false
    maxReq := 20 }

/-- A scenario state: chars 66 and 65 with request-size limit 1. -/
def stTwoChars : FontState :=
  { stBase with
    charsToLoad := [[66], [65]]
    maxReq := 1 }

/-- A scenario state: chars 65, 66, 67 with request-size limit 2. -/
def stThreeChars : FontState :=
  { stBase with
    charsToLoad := [[65], [66], [67]]
    maxReq := 2 }

theorem mem_insertKey {x k : Int} {cm : List Int} :
    x ∈ insertKey k cm ↔ x = k ∨ x ∈ cm := by
  unfold insertKey
  split
  · next hk =>
      constructor
      · exact Or.inr
      · rintro (rfl | h)
        · exact hk
        · exact h
  · exact List.mem_orderedInsert _

theorem insertKey_length (k : Int) (cm : List Int) :
    (insertKey k cm).length ≤ cm.length + 1 := by
  unfold insertKey
  split
  · exact Nat.le_succ _
  · rw [List.orderedInsert_length]

theorem mem_foldl_insertKey :
    ∀ (l acc : List Int) (x : Int),
      x ∈ l.foldl (fun m c => insertKey c m) acc ↔ x ∈ acc ∨ x ∈ l := by
  intro l
  induction l with
  | nil => simp
  | cons c rest ih =>
      intro acc x
      rw [List.foldl_cons, ih, mem_insertKey]
      simp only [List.mem_cons]
      tauto

theorem foldl_setKey_one (l : List Int) :
    ∀ (cl : CharList) (k : JsStr), cl k = some 1 →
      (l.foldl (fun c code => setKey c (stringFromCodePoint code.toNat) 1) cl) k
        = some 1 := by
  induction l with
  | nil => intro cl k h; simpa using h
  | cons c rest ih =>
      intro cl k h
      rw [List.foldl_cons]
      apply ih
      unfold setKey
      split
      · rfl
      · exact h

theorem obfLoop_ar_mono (codes : List Int) (loadable : Int → Bool)
    (rng : Nat → Nat) :
    ∀ (fuel i : Nat) (cm : List Int) (ar : CharList) (k : JsStr) (v : Nat),
      ar k = some v →
      (obfLoop codes loadable rng fuel i cm ar).2 k = some v := by
  intro fuel
  induction fuel with
  | zero => intro i cm ar k v h; simpa [obfLoop] using h
  | succ n ih =>
      intro i cm ar k v h
      rw [obfLoop]
      by_cases hguard : MINIMUM_NON_OBFUSCATION_LENGTH ≤ cm.length
      · rw [if_pos hguard]; exact h
      · rw [if_neg hguard]
        by_cases hload : loadable (newCodeAt codes rng i) = false
        · rw [if_pos hload]; exact ih _ _ _ _ _ h
        · rw [if_neg hload]
          by_cases hnone :
              ar (stringFromCodePoint (newCodeAt codes rng i).toNat) = none
          · rw [if_pos hnone]
            apply ih
            unfold setKey
            by_cases hk : k = stringFromCodePoint (newCodeAt codes rng i).toNat
            · rw [hk] at h; rw [h] at hnone; cases hnone
            · rw [if_neg hk]; exact h
          · rw [if_neg hnone]; exact ih _ _ _ _ _ h

theorem obfLoop_subset (codes : List Int) (loadable : Int → Bool)
    (rng : Nat → Nat) :
    ∀ (fuel i : Nat) (cm : List Int) (ar : CharList) (x : Int),
      x ∈ cm → x ∈ (obfLoop codes loadable rng fuel i cm ar).1 := by
  intro fuel
  induction fuel with
  | zero => intro i cm ar x h; simpa [obfLoop] using h
  | succ n ih =>
      intro i cm ar x h
      rw [obfLoop]
      by_cases hguard : MINIMUM_NON_OBFUSCATION_LENGTH ≤ cm.length
      · rw [if_pos hguard]; exact h
      · rw [if_neg hguard]
        by_cases hload : loadable (newCodeAt codes rng i) = false
        · rw [if_pos hload]; exact ih _ _ _ _ h
        · rw [if_neg hload]
          by_cases hnone :
              ar (stringFromCodePoint (newCodeAt codes rng i).toNat) = none
          · rw [if_pos hnone]; exact ih _ _ _ _ (mem_insertKey.mpr (Or.inr h))
          · rw [if_neg hnone]; exact ih _ _ _ _ h

theorem obfLoop_length (codes : List Int) (loadable : Int → Bool)
    (rng : Nat → Nat) :
    ∀ (fuel i : Nat) (cm : List Int) (ar : CharList),
      (obfLoop codes loadable rng fuel i cm ar).1.length ≤
        max cm.length MINIMUM_NON_OBFUSCATION_LENGTH := by
  intro fuel
  induction fuel with
  | zero => intro i cm ar; simp [obfLoop]
  | succ n ih =>
      intro i cm ar
      rw [obfLoop]
      by_cases hguard : MINIMUM_NON_OBFUSCATION_LENGTH ≤ cm.length
      · rw [if_pos hguard]; exact le_max_left _ _
      · rw [if_neg hguard]
        by_cases hload : loadable (newCodeAt codes rng i) = false
        · rw [if_pos hload]; exact ih _ _ _
        · rw [if_neg hload]
          by_cases hnone :
              ar (stringFromCodePoint (newCodeAt codes rng i).toNat) = none
          · rw [if_pos hnone]
            refine le_trans (ih _ _ _) (max_le ?_ (le_max_right _ _))
            have h1 : cm.length < MINIMUM_NON_OBFUSCATION_LENGTH :=
              Nat.lt_of_not_le hguard
            have h2 := insertKey_length (newCodeAt codes rng i) cm
            exact le_trans (by omega) (le_max_right cm.length _)
          · rw [if_neg hnone]; exact ih _ _ _

theorem obfLoop_mem (codes : List Int) (loadable : Int → Bool)
    (rng : Nat → Nat) :
    ∀ (fuel i : Nat) (cm : List Int) (ar : CharList) (x : Int),
      x ∈ (obfLoop codes loadable rng fuel i cm ar).1 →
      x ∈ cm ∨
        (loadable x = true ∧ ar (stringFromCodePoint x.toNat) = none ∧
          (obfLoop codes loadable rng fuel i cm ar).2
            (stringFromCodePoint x.toNat) = some 1) := by
  intro fuel
  induction fuel with
  | zero => intro i cm ar x h; simp only [obfLoop] at h ⊢; exact Or.inl h
  | succ n ih =>
      intro i cm ar x h
      rw [obfLoop] at h ⊢
      by_cases hguard : MINIMUM_NON_OBFUSCATION_LENGTH ≤ cm.length
      · rw [if_pos hguard] at h ⊢; exact Or.inl h
      · rw [if_neg hguard] at h ⊢
        by_cases hload : loadable (newCodeAt codes rng i) = false
        · rw [if_pos hload] at h ⊢
          exact ih _ _ _ _ h
        · rw [if_neg hload] at h ⊢
          by_cases hnone :
              ar (stringFromCodePoint (newCodeAt codes rng i).toNat) = none
          · rw [if_pos hnone] at h ⊢
            rcases ih _ _ _ _ h with hcm | hprops
            · rcases mem_insertKey.mp hcm with rfl | hmem
              · refine Or.inr ⟨by simpa using hload, hnone, ?_⟩
                apply obfLoop_ar_mono
                unfold setKey
                rw [if_pos rfl]
              · exact Or.inl hmem
            · refine Or.inr ⟨hprops.1, ?_, hprops.2.2⟩
              have hne2 := hprops.2.1
              unfold setKey at hne2
              by_cases hk : stringFromCodePoint x.toNat =
                  stringFromCodePoint (newCodeAt codes rng i).toNat
              · rw [if_pos hk] at hne2; cases hne2
              · rw [if_neg hk] at hne2; exact hne2
          · rw [if_neg hnone] at h ⊢
            exact ih _ _ _ _ h

theorem newCodeAt_bounds (codes : List Int) (rng : Nat → Nat) (i : Nat)
    (h : 0 ≤ codes.getD (i % codes.length) 0) :
    windowBottom (codes.getD (i % codes.length) 0) ≤ newCodeAt codes rng i ∧
      newCodeAt codes rng i ≤ windowTop (codes.getD (i % codes.length) 0) := by
  unfold newCodeAt windowBottom windowTop OBFUSCATION_RANGE
  have h128 : ((256 : Int) / 2) = 128 := by norm_num
  rw [h128]
  set c := codes.getD (i % codes.length) 0 with hc
  have h1 : (0 : Int) ≤ max 0 (c - 128) := le_max_left _ _
  have h2 : max 0 (c - 128) ≤ c := max_le h (by omega)
  have hw : (0 : Int) < c + 128 + 1 - max 0 (c - 128) := by omega
  have hm1 : (0 : Int) ≤ (rng i : Int) % (c + 128 + 1 - max 0 (c - 128)) :=
    Int.emod_nonneg _ (ne_of_gt hw)
  have hm2 : (rng i : Int) % (c + 128 + 1 - max 0 (c - 128)) <
      c + 128 + 1 - max 0 (c - 128) := Int.emod_lt_of_pos _ hw
  omega

theorem getD_mod_mem {l : List Int} (hne : l ≠ []) (i : Nat) :
    l.getD (i % l.length) 0 ∈ l := by
  have hlen : 0 < l.length := List.length_pos.mpr hne
  have hlt : i % l.length < l.length := Nat.mod_lt _ hlen
  rw [List.getD_eq_getElem l 0 hlt]
  exact List.getElem_mem hlt

theorem obfLoop_window (codes : List Int) (loadable : Int → Bool)
    (rng : Nat → Nat) (hne : codes ≠ []) (hpos : ∀ c ∈ codes, 0 ≤ c) :
    ∀ (fuel i : Nat) (cm : List Int) (ar : CharList) (x : Int),
      x ∈ (obfLoop codes loadable rng fuel i cm ar).1 →
      x ∈ cm ∨ ∃ c, c ∈ codes ∧ windowBottom c ≤ x ∧ x ≤ windowTop c := by
  intro fuel
  induction fuel with
  | zero => intro i cm ar x h; simp only [obfLoop] at h; exact Or.inl h
  | succ n ih =>
      intro i cm ar x h
      rw [obfLoop] at h
      split at h
      · exact Or.inl h
      · split at h
        · exact ih _ _ _ _ h
        · split at h
          · rcases ih _ _ _ _ h with hcm | hex
            · rcases mem_insertKey.mp hcm with rfl | hmem
              · refine Or.inr ⟨codes.getD (i % codes.length) 0,
                  getD_mod_mem hne i, ?_⟩
                exact newCodeAt_bounds codes rng i
                  (hpos _ (getD_mod_mem hne i))
              · exact Or.inl hmem
            · exact Or.inr hex
          · exact ih _ _ _ _ h

theorem possibly_obfuscate_decoy_marked (noObfuscate : Bool)
    (rng : Nat → Nat) (codes : List Int) (ar : CharList)
    (loadable : Int → Bool) :
    ∀ x ∈ (possibly_obfuscate noObfuscate rng codes ar loadable).1,
      x ∉ codes →
      (possibly_obfuscate noObfuscate rng codes ar loadable).2
        (stringFromCodePoint x.toNat) = some 1 := by
  intro x hx hnotin
  unfold possibly_obfuscate at hx ⊢
  by_cases hb : noObfuscate = true
  · rw [if_pos hb] at hx ⊢; exact absurd hx hnotin
  · rw [if_neg hb] at hx ⊢
    by_cases hlen : MINIMUM_NON_OBFUSCATION_LENGTH ≤ codes.length
    · rw [if_pos hlen] at hx ⊢; exact absurd hx hnotin
    · rw [if_neg hlen] at hx ⊢
      rcases obfLoop_mem _ _ _ _ _ _ _ _ hx with hcm | hprops
      · rw [mem_foldl_insertKey] at hcm
        rcases hcm with h0 | hcodes
        · cases h0
        · exact absurd hcodes hnotin
      · exact hprops.2.2

/-- C8: if obfuscation is disabled or the input sequence has length at
least `MINIMUM_NON_OBFUSCATION_LENGTH` (20), `possibly_obfuscate` returns
the input sequence unchanged (same elements, same order) and leaves
`alreadyRequestedChars` unmodified. -/
theorem possibly_obfuscate_unchanged (noObfuscate : Bool) (rng : Nat → Nat)
    (codes : List Int) (alreadyRequestedChars : CharList)
    (loadableCodepoints : Int → Bool)
    (h : noObfuscate = true ∨ MINIMUM_NON_OBFUSCATION_LENGTH ≤ codes.length) :
    possibly_obfuscate noObfuscate rng codes alreadyRequestedChars
      loadableCodepoints = (codes, alreadyRequestedChars) := by
  unfold possibly_obfuscate
  rcases h with h | h
  · rw [if_pos h]
  · by_cases hb : noObfuscate = true
    · rw [if_pos hb]
    · rw [if_neg hb, if_pos h]

/-- C8 witness: a disabled-obfuscation call returns its input unchanged. -/
theorem possibly_obfuscate_unchanged_witness :
    (true = true ∨ MINIMUM_NON_OBFUSCATION_LENGTH ≤ ([(70 : Int)]).length) ∧
      possibly_obfuscate true (fun _ => 0) [(70 : Int)] emptyCL
        (fun _ => true) = ([(70 : Int)], emptyCL) :=
  ⟨Or.inl rfl,
    possibly_obfuscate_unchanged true (fun _ => 0) [(70 : Int)] emptyCL
      (fun _ => true) (Or.inl rfl)⟩

set_option maxRecDepth 40000

/-- C7 counterexample: with obfuscation enabled, `codes = [65]`, an empty
`alreadyRequestedChars`, a font whose only loadable codepoint is 65, and a
draw sequence that always lands on the window bottom, every one of the 290
bounded tries is rejected, so `possibly_obfuscate` returns `[65]` — length
1, not the length of at least 20 the claim asserts. -/
theorem possibly_obfuscate_below_min_length :
    (possibly_obfuscate false (fun _ => 0) [(65 : Int)] emptyCL
        (fun x => x == 65)).1 = [(65 : Int)] ∧
      ¬(20 ≤ (possibly_obfuscate false (fun _ => 0) [(65 : Int)] emptyCL
        (fun x => x == 65)).1.length) := by
  constructor
  · decide
  · decide

/-- C7 (amended): with obfuscation enabled and `codes = [65]`,
`possibly_obfuscate` returns a sequence that contains 65 and has length at
most `MINIMUM_NON_OBFUSCATION_LENGTH` (20) — not necessarily at least
20, since the bounded tries may fail to find fresh loadable decoys — in
which every element lies within `[65 - 128, 65 + 128]` clipped at 0
(that is, `[0, 193]`), and every decoy (element other than 65) is set in
`loadableCodepoints` and was absent from `alreadyRequestedChars` at the
time of the call. -/
theorem possibly_obfuscate_single_props (rng : Nat → Nat) (ar : CharList)
    (loadable : Int → Bool) :
    (65 : Int) ∈ (possibly_obfuscate false rng [65] ar loadable).1 ∧
      (possibly_obfuscate false rng [65] ar loadable).1.length ≤
        MINIMUM_NON_OBFUSCATION_LENGTH ∧
      (∀ x ∈ (possibly_obfuscate false rng [65] ar loadable).1,
        0 ≤ x ∧ x ≤ 193) ∧
      (∀ x ∈ (possibly_obfuscate false rng [65] ar loadable).1, x ≠ 65 →
        loadable x = true ∧ ar (stringFromCodePoint x.toNat) = none) := by
  have hunfold : possibly_obfuscate false rng [65] ar loadable =
      obfLoop [65] loadable rng 290 0 [65] ar := rfl
  rw [hunfold]
  refine ⟨?_, ?_, ?_, ?_⟩
  · exact obfLoop_subset [65] loadable rng 290 0 [65] ar 65 (by simp)
  · exact le_trans (obfLoop_length [65] loadable rng 290 0 [65] ar)
      (by decide)
  · intro x hx
    rcases obfLoop_window [65] loadable rng (by decide) (by decide)
        290 0 [65] ar x hx with hcm | ⟨c, hc, hb, ht⟩
    · simp only [List.mem_singleton] at hcm
      subst hcm; constructor <;> decide
    · simp only [List.mem_singleton] at hc
      subst hc
      have hb0 : windowBottom 65 = 0 := by decide
      have ht0 : windowTop 65 = 193 := by decide
      rw [hb0] at hb; rw [ht0] at ht
      exact ⟨hb, ht⟩
  · intro x hx hne
    rcases obfLoop_mem [65] loadable rng 290 0 [65] ar x hx with hcm | hprops
    · simp only [List.mem_singleton] at hcm
      exact absurd hcm hne
    · exact ⟨hprops.1, hprops.2.1⟩

/-- C7 witness for the amended claim: with every codepoint loadable and the
draw sequence `0, 1, 2, ...`, the call grows `[65]` to the full 20 codes
`[0, ..., 18, 65]`; 65 is a member, the length bound holds, the element 3
lies in the window, and the decoy 3 is loadable and was fresh. -/
theorem possibly_obfuscate_single_props_witness :
    (65 : Int) ∈ (possibly_obfuscate false (fun i => i) [65] emptyCL
        (fun _ => true)).1 ∧
      (possibly_obfuscate false (fun i => i) [65] emptyCL
        (fun _ => true)).1.length ≤ MINIMUM_NON_OBFUSCATION_LENGTH ∧
      (0 ≤ (3 : Int) ∧ (3 : Int) ≤ 193) ∧
      ((fun _ => true) (3 : Int) = true ∧
        emptyCL (stringFromCodePoint (3 : Int).toNat) = none) := by
  have h := possibly_obfuscate_single_props (fun i => i) emptyCL
    (fun _ => true)
  exact ⟨h.1, h.2.1, h.2.2.1 3 (by decide), h.2.2.2 3 (by decide) (by decide)⟩

/-- C10: `possibly_obfuscate` mutates its `alreadyRequestedChars`
argument — every decoy codepoint it adds to its result is also inserted,
as its character with value 1, into `alreadyRequestedChars`; and since
`calcNeededChars` passes the live compact charlist as that argument,
every decoy (a code in the produced sequence, sent or remaining, that the
diff step did not produce) is marked present in the resulting charlist,
at obfuscation time, before any glyph data for it has been fetched or
injected. -/
theorem possibly_obfuscate_mutates_charlist
    (noObfuscate : Bool) (rng : Nat → Nat) (codes : List Int)
    (ar cl : CharList) (loadable : Int → Bool) (st : FontState) :
    (∀ x ∈ (possibly_obfuscate noObfuscate rng codes ar loadable).1,
      x ∉ codes →
      (possibly_obfuscate noObfuscate rng codes ar loadable).2
        (stringFromCodePoint x.toNat) = some 1) ∧
    (∀ x ∈ (calcNeededChars st rng cl).neededCodes ++
        (calcNeededChars st rng cl).remaining,
      x ∉ diffStep st.loadable st.charsToLoad cl →
      (calcNeededChars st rng cl).charlist (stringFromCodePoint x.toNat)
        = some 1) := by
  constructor
  · exact possibly_obfuscate_decoy_marked noObfuscate rng codes ar loadable
  · intro x hx hnotin
    by_cases h0 : (diffStep st.loadable st.charsToLoad cl).length = 0
    · rw [calcNeededChars, if_pos h0] at hx
      exact absurd hx (by simp)
    · rw [calcNeededChars, if_neg h0] at hx ⊢
      have hx1 : x ∈ (possibly_obfuscate st.noObfuscate rng
          (diffStep st.loadable st.charsToLoad cl) cl st.loadable).1 := by
        rcases List.mem_append.mp hx with h | h
        · have h' : x ∈ sentCodes st (possibly_obfuscate st.noObfuscate rng
              (diffStep st.loadable st.charsToLoad cl) cl st.loadable).1 := by
            simpa [calcChunk, List.mem_insertionSort] using h
          unfold sentCodes at h'
          by_cases hm : st.maxReq ≠ 0
          · rw [if_pos hm] at h'; exact List.take_subset _ _ h'
          · rw [if_neg hm] at h'; exact h'
        · have h' : x ∈ remainingCodes st (possibly_obfuscate st.noObfuscate
              rng (diffStep st.loadable st.charsToLoad cl) cl st.loadable).1 := by
            simpa [calcChunk] using h
          unfold remainingCodes at h'
          by_cases hm : st.maxReq ≠ 0
          · rw [if_pos hm] at h'; exact List.drop_subset _ _ h'
          · rw [if_neg hm] at h'; cases h'
      have hmark := possibly_obfuscate_decoy_marked st.noObfuscate rng
        (diffStep st.loadable st.charsToLoad cl) cl st.loadable x hx1 hnotin
      simp only [calcChunk]
      exact foldl_setKey_one _ _ _ hmark

/-- C10 witness: with every codepoint loadable and the draw sequence
`0, 1, 2, ...`, the decoy 3 (not among the input codes `[65]`, and not
produced by the diff step for requested char "A") ends up mapped to 1 both
in the mutated `alreadyRequestedChars` of `possibly_obfuscate` and in the
charlist returned by `calcNeededChars`. -/
theorem possibly_obfuscate_mutates_charlist_witness :
    ((3 : Int) ∈ (possibly_obfuscate false (fun i => i) [65] emptyCL
        (fun _ => true)).1 ∧
      (3 : Int) ∉ ([65] : List Int) ∧
      (possibly_obfuscate false (fun i => i) [65] emptyCL
        (fun _ => true)).2 (stringFromCodePoint (3 : Int).toNat) = some 1) ∧
    ((3 : Int) ∈ (calcNeededChars { stBase with noObfuscate := false }
        (fun i => i) emptyCL).neededCodes ++
        (calcNeededChars { stBase with noObfuscate := false }
          (fun i => i) emptyCL).remaining ∧
      (3 : Int) ∉ diffStep stBase.loadable stBase.charsToLoad emptyCL ∧
      (calcNeededChars { stBase with noObfuscate := false } (fun i => i)
        emptyCL).charlist (stringFromCodePoint (3 : Int).toNat) = some 1) := by
  have h := possibly_obfuscate_mutates_charlist false (fun i => i) [65]
    emptyCL emptyCL (fun _ => true) { stBase with noObfuscate := false }
  refine ⟨⟨by decide, by decide, h.1 3 (by decide) (by decide)⟩,
    ⟨by decide, by decide, h.2 3 (by decide) (by decide)⟩⟩

/-- C9: for every behavior of the collaborators — any of which may
reject — the promise returned by `loadChars` resolves: the outer
`thenCatch` absorbs lock/assert failures and the inner
`thenCatch(function(e) { /* No chars to fetch */ })` absorbs every
failure of the diff/fetch/verify/inject chain. -/
theorem loadChars_never_rejects (env : Env) (st : FontState) :
    (loadChars env st).1 = Except.ok () := by
  unfold loadChars
  cases henv : env.preceding with
  | error e => rfl
  | ok u =>
      by_cases hf : st.haveReadFileInfo = true
      · rw [if_pos hf]
      · rw [if_neg hf]

/-- C1 (the code contradicts the claim): when
`backendService_.requestCodepoints` rejects with a transport error, the
`thenCatch` in `fetchChars` routes the rejection into
`handleFingerprintMismatch`, which deletes the font database. The cycle
does end in failure, but persisted state is mutated: the database is
dropped. -/
theorem fetchChars_transport_error_drops_db :
    (fetchChars { envAllOk with request := Except.error "transport error" }
        stBase [(65 : Int)]).1 = Except.error "deleted database" ∧
      Effect.dbDeleted stBase.dbName ∈
        (fetchChars { envAllOk with request := Except.error "transport error" }
          stBase [(65 : Int)]).2 := by
  exact ⟨rfl, by decide⟩

theorem fetchChars_mismatch_eq (env : Env) (st : FontState)
    (b : GlyphBundleResponse)
    (hreq : env.request = Except.ok (some b))
    (hsig : st.sha1 ≠ b.signature)
    (hdel : env.deleteDb = Except.ok ()) :
    ∀ cs : List Int, cs ≠ [] →
      fetchChars env st cs =
        (Except.error "deleted database",
          [Effect.fetchAttempt cs, Effect.report errFINGERPRINT_MISMATCH,
            Effect.dbDeleted st.dbName]) := by
  intro cs hcs
  unfold fetchChars
  rw [if_neg (by simpa [List.length_eq_zero] using hcs), hreq]
  dsimp only [checkFingerprint]
  rw [if_neg hsig]
  dsimp only [handleFingerprintMismatch, dropDb]
  rw [hdel]

theorem calcNeededCharsPromise_no_inject (env : Env) (st : FontState)
    (cs : List Int) :
    Effect.injectAttempt cs ∉ (calcNeededCharsPromise env st).2 := by
  unfold calcNeededCharsPromise
  by_cases h : st.charsToLoad.isEmpty = true
  · rw [if_pos h]; simp
  · rw [if_neg h]
    cases hcl : env.charList with
    | error e => simp
    | ok cl =>
        by_cases hfu : (calcNeededChars st env.rng cl).followUp = true <;>
          simp [hfu]

theorem loadCycle_no_inject (env : Env) (st : FontState)
    (b : GlyphBundleResponse)
    (hreq : env.request = Except.ok (some b))
    (hsig : st.sha1 ≠ b.signature)
    (hdel : env.deleteDb = Except.ok ()) (cs : List Int) :
    Effect.injectAttempt cs ∉ (loadCycle env st).2 := by
  unfold loadCycle
  rcases hcp : calcNeededCharsPromise env st with ⟨r, fx⟩
  have hfx : Effect.injectAttempt cs ∉ fx := by
    have h := calcNeededCharsPromise_no_inject env st cs
    rw [hcp] at h
    exact h
  cases r with
  | error e =>
      dsimp only
      simpa using fun hmem => hfx hmem
  | ok needed =>
      dsimp only
      by_cases hne2 : needed.isEmpty = true
      · rw [if_pos hne2]; exact hfx
      · rw [if_neg hne2]
        have hne3 : needed ≠ [] := by
          intro h
          exact hne2 (by simp [h])
        rw [fetchChars_mismatch_eq env st b hreq hsig hdel needed hne3]
        dsimp only
        simp only [List.mem_append, List.mem_cons, List.not_mem_nil]
        rintro (hmem | h | h | h | h) <;> first
          | exact hfx hmem
          | cases h

/-- C5: when the glyph bundle carries a signature different from the font
base fingerprint, `fetchChars` rejects, the font database is deleted, and
no injection is attempted anywhere in the `loadChars` cycle. -/
theorem fetchChars_fingerprint_mismatch (env : Env) (st : FontState)
    (b : GlyphBundleResponse) (codes : List Int)
    (hreq : env.request = Except.ok (some b))
    (hsig : st.sha1 ≠ b.signature)
    (hdel : env.deleteDb = Except.ok ())
    (hne : codes ≠ []) :
    (fetchChars env st codes).1 = Except.error "deleted database" ∧
      Effect.dbDeleted st.dbName ∈ (fetchChars env st codes).2 ∧
      ∀ cs, Effect.injectAttempt cs ∉ (loadChars env st).2 := by
  refine ⟨?_, ?_, ?_⟩
  · rw [fetchChars_mismatch_eq env st b hreq hsig hdel codes hne]
  · rw [fetchChars_mismatch_eq env st b hreq hsig hdel codes hne]
    simp
  · intro cs
    unfold loadChars
    cases henv : env.preceding with
    | error e => simp
    | ok u =>
        by_cases hf : st.haveReadFileInfo = true
        · rw [if_pos hf]
          simp only [List.mem_append, List.mem_cons, List.not_mem_nil]
          rintro (hmem | h | h)
          · exact loadCycle_no_inject env st b hreq hsig hdel cs hmem
          · cases h
          · cases h
        · rw [if_neg hf]; simp

/-- C5 witness: a server bundle signed xyz789 against a base fingerprint
abc123 rejects the fetch, deletes the database, and the cycle attempts no
injection. -/
theorem fetchChars_fingerprint_mismatch_witness :
    (fetchChars { envAllOk with
        request := Except.ok (some ⟨1, "xyz789"⟩) } stBase
      [(65 : Int)]).1 = Except.error "deleted database" ∧
      Effect.dbDeleted stBase.dbName ∈
        (fetchChars { envAllOk with
          request := Except.ok (some ⟨1, "xyz789"⟩) } stBase [(65 : Int)]).2 ∧
      Effect.injectAttempt [(65 : Int)] ∉
        (loadChars { envAllOk with
          request := Except.ok (some ⟨1, "xyz789"⟩) } stBase).2 := by
  have h := fetchChars_fingerprint_mismatch
    { envAllOk with request := Except.ok (some ⟨1, "xyz789"⟩) } stBase
    ⟨1, "xyz789"⟩ [(65 : Int)] rfl (by decide) rfl (by decide)
  exact ⟨h.1, h.2.1, h.2.2 [(65 : Int)]⟩

/-- C2 counterexample: when persisting the freshly fetched and compacted
base fails, `processFontbase` does not resolve with the in-memory result.
An `openIndexedDb` failure is reported, the stores are cleared, and the
operation rejects; a `putStores` failure is swallowed inside
`saveNewCompactFont` (its error handler builds a rejection without
returning it), so the save resolves with `undefined` and the unpacking
`newData[0]` rejects with a type error. -/
theorem processFontbase_persist_failure_rejects :
    (processFontbase { envAllOk with openDb := Except.error "open failed" }
        7).1 = Except.error "open failed" ∧
      (processFontbase { envAllOk with putStores := Except.error "quota" }
        7).1 = Except.error "TypeError: newData is undefined" := by
  exact ⟨rfl, rfl⟩

/-- C2 (amended): for every base acquisition that fetches the font from
the network and successfully decodes and compacts it, if the subsequent
write to the Persistent Store fails (the database cannot be opened, the
stored metadata cannot be read, or the put fails), the operation does not
resolve with the in-memory result: it rejects. -/
theorem processFontbase_persist_failure (env : Env) (bytes : Nat)
    (h : (∃ e, env.openDb = Except.error e) ∨
      (∃ e, env.getMetadata = Except.error e) ∨
      (∃ e, env.putStores = Except.error e)) :
    ∃ e, (processFontbase env bytes).1 = Except.error e := by
  unfold processFontbase saveNewCompactFont
  cases ho : env.openDb with
  | error e2 =>
      dsimp only
      cases hc : env.clearStores <;> exact ⟨_, rfl⟩
  | ok u =>
      dsimp only
      cases hm : env.getMetadata with
      | error e2 => dsimp only; exact ⟨_, rfl⟩
      | ok md =>
          dsimp only
          cases hp : env.putStores with
          | error e2 => dsimp only; exact ⟨_, rfl⟩
          | ok v =>
              exfalso
              rcases h with ⟨e, he⟩ | ⟨e, he⟩ | ⟨e, he⟩
              · rw [ho] at he; cases he
              · rw [hm] at he; cases he
              · rw [hp] at he; cases he

/-- C2 witness: a put failure makes `processFontbase` reject. -/
theorem processFontbase_persist_failure_witness :
    ((∃ e, ({ envAllOk with putStores := Except.error "quota" } : Env).openDb
        = Except.error e) ∨
      (∃ e, ({ envAllOk with putStores := Except.error "quota" } : Env).getMetadata
        = Except.error e) ∨
      (∃ e, ({ envAllOk with putStores := Except.error "quota" } : Env).putStores
        = Except.error e)) ∧
      ∃ e, (processFontbase { envAllOk with putStores := Except.error "quota" }
        7).1 = Except.error e :=
  ⟨Or.inr (Or.inr ⟨"quota", rfl⟩),
    processFontbase_persist_failure
      { envAllOk with putStores := Except.error "quota" } 7
      (Or.inr (Or.inr ⟨"quota", rfl⟩))⟩

/-- C3 counterexample: 21 loadable, unloaded chars requested in descending
codepoint order (100 down to 80) with request-size limit 20. Obfuscation
is enabled but skipped (21 >= 20), so the sequence reaching the split is
in iteration order 100..80. The split happens before the sort: the head
chunk is the first 20 entries 100..81 (then sorted to 81..100) and the
remainder is [80] — although 80 is the numerically smallest codepoint of
the full sequence, it is not in the transmitted head chunk, contradicting
the claim. -/
theorem calcNeededChars_splits_before_sorting :
    (calcNeededChars stDescending (fun _ => 0) emptyCL).neededCodes =
      [81, 82, 83, 84, 85, 86, 87, 88, 89, 90, 91, 92, 93, 94, 95, 96, 97,
        98, 99, 100] ∧
      (calcNeededChars stDescending (fun _ => 0) emptyCL).remaining =
        [(80 : Int)] := by
  exact ⟨by decide, by decide⟩

/-- C3 (amended): the transmitted head chunk is sorted ascending by
numeric codepoint, but the sort is applied to the head chunk after the
sequence is split at the request-size limit: the head chunk is the first
`maximumRequestSize_` codepoints of the diff-and-obfuscate sequence in its
iteration order (then sorted), and the remainder is the rest of that
sequence — the head chunk need not be the numerically smallest codepoints
of the full sequence. -/
theorem calcNeededChars_sorts_head_after_split (st : FontState)
    (rng : Nat → Nat) (cl : CharList) :
    List.Sorted (· ≤ ·) (calcNeededChars st rng cl).neededCodes ∧
      (diffStep st.loadable st.charsToLoad cl ≠ [] →
        (calcNeededChars st rng cl).neededCodes.Perm
          (sentCodes st (obfuscatedNeeded st rng cl)) ∧
        (calcNeededChars st rng cl).remaining =
          remainingCodes st (obfuscatedNeeded st rng cl)) := by
  constructor
  · unfold calcNeededChars
    by_cases h0 : (diffStep st.loadable st.charsToLoad cl).length = 0
    · rw [if_pos h0]; exact List.sorted_nil
    · rw [if_neg h0]
      dsimp only [calcChunk]
      exact List.sorted_insertionSort _ _
  · intro hne
    have h0 : ¬((diffStep st.loadable st.charsToLoad cl).length = 0) := by
      simpa [List.length_eq_zero] using hne
    unfold calcNeededChars obfuscatedNeeded
    rw [if_neg h0]
    dsimp only [calcChunk]
    exact ⟨List.perm_insertionSort _ _, rfl⟩

/-- C3 witness for the amended claim: chars 66, 65 with limit 1 — the head
chunk is the sorted first entry and the remainder is the rest. -/
theorem calcNeededChars_sorts_head_after_split_witness :
    diffStep stTwoChars.loadable stTwoChars.charsToLoad emptyCL ≠ [] ∧
      List.Sorted (· ≤ ·)
        (calcNeededChars stTwoChars (fun _ => 0) emptyCL).neededCodes ∧
      (calcNeededChars stTwoChars (fun _ => 0) emptyCL).remaining =
        remainingCodes stTwoChars
          (obfuscatedNeeded stTwoChars (fun _ => 0) emptyCL) := by
  have h := calcNeededChars_sorts_head_after_split stTwoChars
    (fun _ => 0) emptyCL
  exact ⟨by decide, h.1, (h.2 (by decide)).2⟩

/-- C6: for every needed-codepoint sequence and nonzero request-size
limit, the codes sent in the current fetch are exactly the first
`maximumRequestSize_` codepoints of the sequence (sorted for
transmission) and the rest are deferred: `remaining` is the tail beyond
the limit and the follow-up `loadChars` is scheduled (via `setTimeout`,
hence after the current cycle returns, not nested inside it) exactly when
the sequence exceeds the limit. The default limit is 2200; with 5000
needed codepoints and limit 2200, exactly 2200 are sent and 2800
deferred. -/
theorem calcNeededChars_chunking (st : FontState) (rng : Nat → Nat)
    (cl : CharList) (hm : st.maxReq ≠ 0)
    (h0 : diffStep st.loadable st.charsToLoad cl ≠ []) :
    (calcNeededChars st rng cl).neededCodes.Perm
      ((obfuscatedNeeded st rng cl).take st.maxReq) ∧
      (calcNeededChars st rng cl).remaining =
        (obfuscatedNeeded st rng cl).drop st.maxReq ∧
      (calcNeededChars st rng cl).neededCodes.length =
        min st.maxReq (obfuscatedNeeded st rng cl).length ∧
      (calcNeededChars st rng cl).remaining.length =
        (obfuscatedNeeded st rng cl).length - st.maxReq ∧
      ((calcNeededChars st rng cl).followUp = true ↔
        st.maxReq < (obfuscatedNeeded st rng cl).length) ∧
      maximumRequestSize none = 2200 ∧
      ((obfuscatedNeeded st rng cl).length = 5000 → st.maxReq = 2200 →
        (calcNeededChars st rng cl).neededCodes.length = 2200 ∧
        (calcNeededChars st rng cl).remaining.length = 2800) := by
  have h0' : ¬((diffStep st.loadable st.charsToLoad cl).length = 0) := by
    simpa [List.length_eq_zero] using h0
  unfold calcNeededChars obfuscatedNeeded
  rw [if_neg h0']
  dsimp only [calcChunk, sentCodes, remainingCodes]
  simp only [if_pos hm]
  refine ⟨List.perm_insertionSort _ _, by trivial, ?_, ?_, ?_, by trivial, ?_⟩
  · rw [List.length_insertionSort, List.length_take]
  · rw [List.length_drop]
  · rw [Bool.not_eq_true', ← Bool.not_eq_true, List.isEmpty_iff,
      List.drop_eq_nil_iff, not_le]
  · intro h5 h2
    rw [List.length_insertionSort, List.length_take, List.length_drop, h5, h2]
    norm_num

/-- C6 witness: three needed codes with limit 2 — the sent chunk has
length `min 2 3 = 2` and one code is deferred with the follow-up cycle
scheduled. -/
theorem calcNeededChars_chunking_witness :
    stThreeChars.maxReq ≠ 0 ∧
      diffStep stThreeChars.loadable stThreeChars.charsToLoad emptyCL ≠ [] ∧
      (calcNeededChars stThreeChars (fun _ => 0) emptyCL).neededCodes.length =
        min stThreeChars.maxReq
          (obfuscatedNeeded stThreeChars (fun _ => 0) emptyCL).length ∧
      ((calcNeededChars stThreeChars (fun _ => 0) emptyCL).followUp = true ↔
        stThreeChars.maxReq <
          (obfuscatedNeeded stThreeChars (fun _ => 0) emptyCL).length) := by
  have h := calcNeededChars_chunking stThreeChars
    (fun _ => 0) emptyCL (by decide) (by decide)
  exact ⟨by decide, by decide, h.2.2.1, h.2.2.2.2.1⟩

theorem charToCode_single (a : Nat) (ha : ¬(0xD800 ≤ a ∧ a ≤ 0xDBFF)) :
    charToCode [a] = (a : Int) := by
  simp only [charToCode, List.headD_cons, if_neg ha]

theorem charToCode_pair (a b : Nat) (ha : 0xD800 ≤ a ∧ a ≤ 0xDBFF) :
    charToCode [a, b] =
      ((a : Int) - 0xD800) * 1024 + ((b : Int) - 0xDC00) + 0x10000 := by
  simp only [charToCode, List.headD_cons, List.getD_cons_succ,
    List.getD_cons_zero, if_pos ha]

theorem charToCode_stringFromCodePoint (cp : Nat) (h : isScalar cp) :
    charToCode (stringFromCodePoint cp) = (cp : Int) := by
  obtain ⟨hmax, hsur⟩ := h
  unfold stringFromCodePoint
  by_cases hc : cp ≤ 0xFFFF
  · rw [if_pos hc, charToCode_single cp (by omega)]
  · rw [if_neg hc, charToCode_pair _ _ (by omega)]
    push_cast
    omega

theorem diffStep_mem_iff (loadable : Int → Bool) (cl : CharList) :
    ∀ (l : List JsStr) (tmp : CharList), l.Nodup →
      (∀ c ∈ l, tmp c = cl c) →
      ∀ x, (x ∈ diffStep loadable l tmp ↔
        ∃ c, c ∈ l ∧ charToCode c = x ∧ loadable (charToCode c) = true ∧
          truthy (cl c) = false) := by
  intro l
  induction l with
  | nil => intro tmp _ _ x; simp [diffStep]
  | cons c0 rest ih =>
      intro tmp hnd hagree x
      have hc0 : tmp c0 = cl c0 := hagree c0 (by simp)
      rw [diffStep]
      by_cases hcond : loadable (charToCode c0) = true ∧ truthy (tmp c0) = false
      · rw [if_pos hcond]
        have hagree2 : ∀ c ∈ rest, setKey tmp c0 1 c = cl c := by
          intro c hcr
          unfold setKey
          have hne : ¬(c = c0) := by
            intro hcc
            exact (List.nodup_cons.mp hnd).1 (hcc ▸ hcr)
          rw [if_neg hne]
          exact hagree c (List.mem_cons_of_mem _ hcr)
        rw [List.mem_cons, ih (setKey tmp c0 1) (List.nodup_cons.mp hnd).2
          hagree2 x]
        constructor
        · rintro (rfl | ⟨c, hcr, hcode, hl, ht⟩)
          · exact ⟨c0, by simp, rfl, hcond.1, by rw [← hc0]; exact hcond.2⟩
          · exact ⟨c, List.mem_cons_of_mem _ hcr, hcode, hl, ht⟩
        · rintro ⟨c, hcm, hcode, hl, ht⟩
          rcases List.mem_cons.mp hcm with rfl | hcr
          · exact Or.inl hcode.symm
          · exact Or.inr ⟨c, hcr, hcode, hl, ht⟩
      · rw [if_neg hcond]
        rw [ih tmp (List.nodup_cons.mp hnd).2
          (fun c hcr => hagree c (List.mem_cons_of_mem _ hcr)) x]
        constructor
        · rintro ⟨c, hcr, hcode, hl, ht⟩
          exact ⟨c, List.mem_cons_of_mem _ hcr, hcode, hl, ht⟩
        · rintro ⟨c, hcm, hcode, hl, ht⟩
          rcases List.mem_cons.mp hcm with rfl | hcr
          · exact absurd ⟨hl, by rw [hc0]; exact ht⟩ hcond
          · exact ⟨c, hcr, hcode, hl, ht⟩

/-- C4: for a requested character set whose chars are well-formed
single-codepoint strings, pairwise distinct, and a charlist whose stored
values are all 1 (as the manager maintains), a requested character's
codepoint is in the needed-characters diff result iff it is set in the
loadable codepoints and the character is absent from the charlist; and the
diff result never contains a codepoint already marked present nor one
absent from the loadable codepoints. -/
theorem calcNeededChars_diff_iff (loadable : Int → Bool) (cl : CharList)
    (l : List JsStr)
    (hvalid : ∀ c ∈ l, ∃ cp, isScalar cp ∧ c = stringFromCodePoint cp)
    (hnd : l.Nodup)
    (hones : ∀ (c : JsStr) (n : Nat), cl c = some n → n = 1) :
    (∀ c ∈ l, (charToCode c ∈ diffStep loadable l cl ↔
      (loadable (charToCode c) = true ∧ cl c = none))) ∧
      (∀ x ∈ diffStep loadable l cl, loadable x = true ∧
        cl (stringFromCodePoint x.toNat) = none) := by
  have htr : ∀ c, truthy (cl c) = false ↔ cl c = none := by
    intro c
    cases hcl : cl c with
    | none => simp [truthy]
    | some v =>
        have hv := hones c v hcl
        subst hv
        simp [truthy]
  have hiff := diffStep_mem_iff loadable cl l cl hnd (fun _ _ => rfl)
  constructor
  · intro c hc
    rw [hiff (charToCode c)]
    constructor
    · rintro ⟨c', hc', hcode, hl, ht⟩
      obtain ⟨cp, hcp, rfl⟩ := hvalid c hc
      obtain ⟨cp', hcp', rfl⟩ := hvalid c' hc'
      rw [charToCode_stringFromCodePoint cp hcp,
        charToCode_stringFromCodePoint cp' hcp'] at hcode
      have hcpeq : cp' = cp := by exact_mod_cast hcode
      subst hcpeq
      exact ⟨hl, (htr _).mp ht⟩
    · rintro ⟨hl, hnone⟩
      exact ⟨c, hc, rfl, hl, (htr c).mpr hnone⟩
  · intro x hx
    rw [hiff x] at hx
    obtain ⟨c, hc, hcode, hl, ht⟩ := hx
    obtain ⟨cp, hcp, rfl⟩ := hvalid c hc
    rw [charToCode_stringFromCodePoint cp hcp] at hcode hl
    subst hcode
    refine ⟨hl, ?_⟩
    rw [Int.toNat_natCast]
    exact (htr _).mp ht

/-- C4 witness: requested chars 66 and 65 where 65 is already present —
the diff contains the codepoint of char 66 (loadable، absent) and every
diff entry is loadable and not marked present. -/
theorem calcNeededChars_diff_iff_witness :
    (∀ c ∈ ([[66], [65]] : List JsStr),
        ∃ cp, isScalar cp ∧ c = stringFromCodePoint cp) ∧
      ([[66], [65]] : List JsStr).Nodup ∧
      (∀ (c : JsStr) (n : Nat), setKey emptyCL [65] 1 c = some n → n = 1) ∧
      (charToCode [66] ∈ diffStep (fun _ => true) [[66], [65]]
          (setKey emptyCL [65] 1) ↔
        ((fun _ => true) (charToCode [66]) = true ∧
          setKey emptyCL [65] 1 [66] = none)) ∧
      (∀ x ∈ diffStep (fun _ => true) [[66], [65]] (setKey emptyCL [65] 1),
        (fun _ => true) x = true ∧
          setKey emptyCL [65] 1 (stringFromCodePoint x.toNat) = none) := by
  have hvalid : ∀ c ∈ ([[66], [65]] : List JsStr),
      ∃ cp, isScalar cp ∧ c = stringFromCodePoint cp := by
    intro c hc
    rcases List.mem_cons.mp hc with rfl | hc2
    · exact ⟨66, by decide, by decide⟩
    · rcases List.mem_cons.mp hc2 with rfl | hc3
      · exact ⟨65, by decide, by decide⟩
      · cases hc3
  have hones : ∀ (c : JsStr) (n : Nat), setKey emptyCL [65] 1 c = some n →
      n = 1 := by
    intro c n h
    unfold setKey emptyCL at h
    by_cases hc : c = [65]
    · rw [if_pos hc] at h
      exact (Option.some_inj.mp h).symm
    · rw [if_neg hc] at h
      cases h
  have h := calcNeededChars_diff_iff (fun _ => true) (setKey emptyCL [65] 1)
    [[66], [65]] hvalid (by decide) hones
  exact ⟨hvalid, by decide, hones, h.1 [66] (by simp), h.2⟩

end Tachyfont
